import Mathlib

/-!
Verification of the gtsam timing instrumentation (`gtsam/base/timing.h`) and the
`VectorConfig` named-vector map (`cpp/VectorConfig.cpp`) against their natural-language
specification.  The C++ is shallowly embedded: the mutable `std::map<std::string, Vector>`
member becomes a strictly key-sorted association list with `std::map` operation semantics,
mutation becomes explicit state passing, `throw` becomes `Except.error`, and console
diagnostics become an explicit event trace.
-/

namespace gtsam

/-! ## Timing instrumentation (timing.h) -/

/-- Events emitted by the tic/toc machinery.  `ticInternal` and `tocInternal` are declared
in timing.h but defined in timing.cpp, which is not part of the sources; for the scoped
timer `AutoTicToc` only the fact that a call to `tocInternal` records the region's elapsed
time once matters, so the two functions are modelled as emitting one event each. -/
inductive TicTocEvent where
  | tic (id : Nat) (label : String)
  | toc (id : Nat) (label : String)
deriving DecidableEq, Repr

/-- State of an `AutoTicToc` guard: `id_`, `label_` and the `isSet_` flag
(timing.h lines 171-180). -/
structure AutoTicToc where
  id : Nat
  label : String
  isSet : Bool
deriving DecidableEq, Repr

/-- The constructor `AutoTicToc(id, label)`: sets `isSet_ = true` and calls
`ticInternal(id_, label_)`. -/
def AutoTicToc.construct (id : Nat) (label : String) : AutoTicToc × List TicTocEvent :=
  (⟨id, label, true⟩, [TicTocEvent.tic id label])

/-- The member `stop()`: calls `tocInternal(id_, label_)` unconditionally, then sets
`isSet_ = false`.  Note the body has no guard on `isSet_`. -/
def AutoTicToc.stop (a : AutoTicToc) : AutoTicToc × List TicTocEvent :=
  ({ a with isSet := false }, [TicTocEvent.toc a.id a.label])

/-- The destructor `~AutoTicToc()`: `if (isSet_) stop();`. -/
def AutoTicToc.destruct (a : AutoTicToc) : List TicTocEvent :=
  if a.isSet then a.stop.2 else []

/-- Number of `toc` recordings in an event trace. -/
def tocCount (es : List TicTocEvent) : Nat :=
  es.countP fun e => match e with
    | TicTocEvent.toc _ _ => true
    | _ => false

/-- One node of the timing call tree, `internal::TimingOutline` (timing.h lines 132-169):
cumulative cpu time `t_`, wall time `tWall_`, squared-time accumulator `t2_`, per-iteration
accumulator `tIt_`, extrema `tMax_`/`tMin_`, call count `n_`, ordering indices, label, and
the child map keyed by timing id.  The boost timers are not modelled (elapsed times enter
through `tocInternal`'s recorded events). -/
inductive TimingOutline where
  | node (myId : Nat) (t : Nat) (tWall : Nat) (t2 : ℤ) (tIt : Nat) (tMax : Nat) (tMin : Nat)
      (n : Nat) (myOrder : Nat) (lastChildOrder : Nat) (label : String)
      (children : List (Nat × TimingOutline)) : TimingOutline

/-- Call count `n_` of a node. -/
def TimingOutline.n : TimingOutline → Nat
  | TimingOutline.node _ _ _ _ _ _ _ n _ _ _ _ => n

/-- Label `label_` of a node. -/
def TimingOutline.label : TimingOutline → String
  | TimingOutline.node _ _ _ _ _ _ _ _ _ _ label _ => label

/-- Child map `children_` of a node. -/
def TimingOutline.children : TimingOutline → List (Nat × TimingOutline)
  | TimingOutline.node _ _ _ _ _ _ _ _ _ _ _ children => children

/-- Modelled from the spec: the constructor `TimingOutline(label, myId)` is defined in
timing.cpp, which is not among the sources; per the spec a fresh node carries "zero
statistics" and a reset installs "a new empty root", so all statistics are zero and the
child map is empty. -/
def TimingOutline.fresh (label : String) (myId : Nat) : TimingOutline :=
  TimingOutline.node myId 0 0 0 0 0 0 0 0 0 label []

/-- Modelled from the spec: `internal::getTicTocID` is defined in timing.cpp, which is not
among the sources; per the spec the first call for a given string allocates the next
sequential id and stores the mapping, and later calls return the same id.  The registry is
the list of strings in registration order; the id of a string is its index. -/
def getTicTocID (reg : List String) (description : String) : List String × Nat :=
  match reg.findIdx? (fun s => s == description) with
  | some i => (reg, i)
  | none => (reg ++ [description], reg.length)

/-- Global state of the timing module: the label registry (static state of `getTicTocID`),
the tree root `internal::timingRoot`, and the cursor `internal::timingCurrent`, modelled
as the path of child ids leading from the root to the current node (the empty path is the
root itself). -/
structure TimingState where
  registry : List String
  timingRoot : TimingOutline
  timingCurrent : List Nat

/-- The inline function `tictoc_reset_()` (timing.h lines 213-215): `timingRoot.reset(new
TimingOutline("Total", getTicTocID("Total")))` followed by `timingCurrent = timingRoot`. -/
def tictoc_reset_ (s : TimingState) : TimingState :=
  let r := getTicTocID s.registry "Total"
  { registry := r.1
    timingRoot := TimingOutline.fresh "Total" r.2
    timingCurrent := [] }

/-! ## VectorConfig (VectorConfig.cpp)

The class holds a member `values`, declared in VectorConfig.h (not among the sources); the
.cpp file uses `values.find`, `values.insert(make_pair(..))`, `values[j]`, `const_iterator`
traversal and `values.size()`, i.e. the interface of `std::map<std::string, Vector>`.  It
is embedded as an association list whose keys are kept strictly sorted (the iteration
order of `std::map`), with the standard container's operation semantics: `insert` does
nothing when the key is already present, `operator[]` default-constructs an absent entry.
`Vector` (boost ublas, defined outside the sources) is a list of integers standing for
the mathematical content of a vector of doubles (exact arithmetic in an ordered ring; no
claim under scrutiny involves division or rounding). -/

/-- A numeric vector. -/
abbrev Vector := List ℤ

/-- Elementwise vector sum (`operator+=` / `operator+` on equally sized vectors). -/
def vecAdd (v w : Vector) : Vector := List.zipWith (· + ·) v w

/-- Scalar multiple `s*val` of a vector. -/
def vecScale (s : ℤ) (v : Vector) : Vector := v.map (fun x => s * x)

/-- The subvector helper `sub(v, i1, i2)` used by `exmap(const Vector&)`. Its definition
lives outside the sources; modelled from the spec: "splits the flat vector into
consecutive slices", so it extracts the entries with indices in [i1, i2). -/
def sub (v : Vector) (i1 i2 : Nat) : Vector := (v.drop i1).take (i2 - i1)

/-- Absolute value, as `fabs` on doubles. -/
def fabs (x : ℤ) : ℤ := if x < 0 then -x else x

/-- Modelled from the spec: `equal_with_abs_tol` is defined outside the sources; per the
spec "every value must match elementwise within tolerance", with vectors of different
lengths never equal. -/
def equal_with_abs_tol (vec1 vec2 : Vector) (tol : ℤ) : Bool :=
  vec1.length == vec2.length &&
    (List.zip vec1 vec2).all (fun p => decide (fabs (p.1 - p.2) ≤ tol))

/-- Diagnostic console output produced on the failure paths: `print()` dumping the whole
map, and the "asked for key"/size messages preceding a throw. -/
inductive DiagEvent where
  | dumpConfig (contents : List (String × Vector))
  | askedForKey (key : String)
  | sizeMismatchFor (key : String) (vjSize djSize : Nat)
deriving DecidableEq, Repr

/-- The exceptions thrown by VectorConfig.cpp: `std::invalid_argument("VectorConfig::[]
invalid key")` from `get`, and `std::invalid_argument("VectorConfig::+ mismatched
dimensions")` from `check_size` (which first prints the key and both sizes). -/
inductive ConfigError where
  | InvalidKey
  | DimensionMismatch (key : String) (vjSize djSize : Nat)
deriving DecidableEq, Repr

/-- Lexicographic comparison of character lists by code point, the order underlying
`std::less<std::string>`, which governs the layout of `std::map`. -/
def charListLt : List Char → List Char → Bool
  | _, [] => false
  | [], _ :: _ => true
  | a :: as, b :: bs =>
    if a.toNat < b.toNat then true
    else if b.toNat < a.toNat then false
    else charListLt as bs

/-- The key order of the `values` map: `std::less<std::string>` on the key strings. -/
def keyLt (s t : String) : Bool := charListLt s.data t.data

/-- `values.find(name)` as a lookup returning the mapped vector when present. -/
def mapFind : List (String × Vector) → String → Option Vector
  | [], _ => none
  | (k, v) :: rest, name => if k = name then some v else mapFind rest name

/-- `values.insert(make_pair(name, val))`: places the pair at its sorted position when the
key is absent and does nothing when the key is already present (`std::map::insert`). -/
def mapInsert : List (String × Vector) → String → Vector → List (String × Vector)
  | [], k, v => [(k, v)]
  | (k0, v0) :: rest, k, v =>
    if keyLt k k0 then (k, v) :: (k0, v0) :: rest
    else if k = k0 then (k0, v0) :: rest
    else (k0, v0) :: mapInsert rest k v

/-- `values[j] = v` as a single step: `std::map::operator[]` default-constructs an absent
entry at its sorted position, and the subsequent assignment overwrites the mapped
vector. -/
def mapAssign : List (String × Vector) → String → Vector → List (String × Vector)
  | [], k, v => [(k, v)]
  | (k0, v0) :: rest, k, v =>
    if keyLt k k0 then (k, v) :: (k0, v0) :: rest
    else if k = k0 then (k, v) :: rest
    else (k0, v0) :: mapAssign rest k v

/-- Factor graph configuration: the `values` map from names to vectors. -/
structure VectorConfig where
  values : List (String × Vector)
deriving DecidableEq, Repr

/-- Well-formedness of the embedded map: the keys are strictly increasing, as they are for
any state a `std::map` can reach. -/
abbrev WfList (l : List (String × Vector)) : Prop :=
  l.Pairwise (fun p q => keyLt p.1 q.1 = true)

/-- `VectorConfig::contains` (declared in the header): key membership. -/
def VectorConfig.contains (c : VectorConfig) (name : String) : Bool :=
  (mapFind c.values name).isSome

/-- `VectorConfig::insert` (lines 39-42): `values.insert(make_pair(name, val)); return
*this;` — the returned configuration is the receiver after the call. -/
def VectorConfig.insert (c : VectorConfig) (name : String) (val : Vector) : VectorConfig :=
  ⟨mapInsert c.values name val⟩

/-- `VectorConfig::get` (lines 123-131) with its console diagnostics: on a hit, the mapped
vector; on a miss, `print()` dumps the current contents, the "asked for key" line is
printed, and `std::invalid_argument` is thrown. -/
def VectorConfig.getTr (c : VectorConfig) (name : String) :
    List DiagEvent × Except ConfigError Vector :=
  match mapFind c.values name with
  | some v => ([], Except.ok v)
  | none =>
    ([DiagEvent.dumpConfig c.values, DiagEvent.askedForKey name],
      Except.error ConfigError.InvalidKey)

/-- `VectorConfig::get`, result only. -/
def VectorConfig.get (c : VectorConfig) (name : String) : Except ConfigError Vector :=
  (c.getTr name).2

/-- `VectorConfig::add` (lines 45-48): `Vector& vj = values[j]; if (vj.size()==0) vj = a;
else vj += a;`.  `values[j]` yields the stored vector, or a default-constructed (empty)
one when `j` is absent; the entry then receives `a` if that vector is empty and the
elementwise sum otherwise. -/
def VectorConfig.add (c : VectorConfig) (j : String) (a : Vector) : VectorConfig :=
  let vj := (mapFind c.values j).getD []
  ⟨mapAssign c.values j (if vj.length = 0 then a else vecAdd vj a)⟩

/-- `VectorConfig::dim` (lines 51-56): sum of the sizes of all stored vectors. -/
def VectorConfig.dim (c : VectorConfig) : Nat :=
  c.values.foldl (fun result p => result + p.2.length) 0

/-- `VectorConfig::scale` (lines 59-65): builds a fresh configuration, inserting
`(key, s*val)` for each entry in iteration order. -/
def VectorConfig.scale (c : VectorConfig) (s : ℤ) : VectorConfig :=
  ⟨c.values.foldl (fun acc p => mapInsert acc p.1 (vecScale s p.2)) []⟩

/-- `check_size` (lines 21-28): when the two sizes differ it prints the key and both sizes
and throws `std::invalid_argument`. -/
def check_size (key : String) (vj dj : Vector) : List DiagEvent × Except ConfigError Unit :=
  if dj.length ≠ vj.length then
    ([DiagEvent.sizeMismatchFor key vj.length dj.length],
      Except.error (ConfigError.DimensionMismatch key vj.length dj.length))
  else ([], Except.ok ())

/-- Loop body of `VectorConfig::exmap(const VectorConfig&)` (lines 91-105): walk the
receiver's entries, and for each key present in `delta` check sizes and insert the sum
into the new configuration, otherwise insert the entry unchanged. -/
def exmapGo (delta : VectorConfig) :
    List (String × Vector) → VectorConfig → Except ConfigError VectorConfig
  | [], newConfig => Except.ok newConfig
  | (j, vj) :: rest, newConfig =>
    match mapFind delta.values j with
    | some dj =>
      match (check_size j vj dj).2 with
      | Except.error e => Except.error e
      | Except.ok _ => exmapGo delta rest (newConfig.insert j (vecAdd vj dj))
    | none => exmapGo delta rest (newConfig.insert j vj)

/-- `VectorConfig::exmap(const VectorConfig&)` (lines 91-105). -/
def VectorConfig.exmap (c : VectorConfig) (delta : VectorConfig) :
    Except ConfigError VectorConfig :=
  exmapGo delta c.values ⟨[]⟩

/-- Loop body of `VectorConfig::exmap(const Vector&)` (lines 108-120): walk the entries
keeping a running offset `i`, add the slice `sub(delta, i, i+mj)` to each stored vector,
and insert the result into the new configuration. -/
def exmapFlatGo (delta : Vector) :
    List (String × Vector) → Nat → VectorConfig → VectorConfig
  | [], _, newConfig => newConfig
  | (j, vj) :: rest, i, newConfig =>
    exmapFlatGo delta rest (i + vj.length)
      (newConfig.insert j (vecAdd vj (sub delta i (i + vj.length))))

/-- `VectorConfig::exmap(const Vector&)` (lines 108-120). -/
def VectorConfig.exmapFlat (c : VectorConfig) (delta : Vector) : VectorConfig :=
  exmapFlatGo delta c.values 0 ⟨[]⟩

/-- Loop body of `VectorConfig::equals` (lines 150-155): for each entry of the receiver,
look the key up in `expected` (per the spec the header's `operator[]` delegates to `get`,
so an absent key fails through `get`'s contract, dump included), then compare with
`equal_with_abs_tol`; the first tolerance failure returns false. -/
def equalsGo (expected : VectorConfig) (tol : ℤ) :
    List (String × Vector) → List DiagEvent × Except ConfigError Bool
  | [] => ([], Except.ok true)
  | (j, vActual) :: rest =>
    match expected.getTr j with
    | (tr, Except.error e) => (tr, Except.error e)
    | (tr, Except.ok vExpected) =>
      if equal_with_abs_tol vExpected vActual tol then
        let r := equalsGo expected tol rest
        (tr ++ r.1, r.2)
      else (tr, Except.ok false)

/-- `VectorConfig::equals` (lines 145-156): false outright when the two sizes differ,
otherwise the loop above. -/
def VectorConfig.equals (c : VectorConfig) (expected : VectorConfig) (tol : ℤ) :
    List DiagEvent × Except ConfigError Bool :=
  if c.values.length ≠ expected.values.length then ([], Except.ok false)
  else equalsGo expected tol c.values

/-- The entry an `exmap(const VectorConfig&)` call produces for one entry of the receiver,
assuming its size check passed: the sum with the delta entry when one exists, the
unchanged vector otherwise. -/
def exmapEntry (delta : VectorConfig) (p : String × Vector) : String × Vector :=
  (p.1, match mapFind delta.values p.1 with
        | some dj => vecAdd p.2 dj
        | none => p.2)

/-- The list of entries `exmap(const Vector&)` produces from a run of entries starting at
offset `i`: each stored vector plus its consecutive slice of `delta`. -/
def slices (delta : Vector) : List (String × Vector) → Nat → List (String × Vector)
  | [], _ => []
  | (j, vj) :: rest, i =>
    (j, vecAdd vj (sub delta i (i + vj.length))) :: slices delta rest (i + vj.length)

/-- Sum of the sizes of the stored vectors of a run of entries. -/
def sizesSum : List (String × Vector) → Nat
  | [] => 0
  | p :: rest => p.2.length + sizesSum rest

/-- Offset of key `k`'s slice within a run of entries: the sum of the stored sizes of the
entries preceding the first entry named `k`. -/
def offsetOfL (l : List (String × Vector)) (k : String) : Nat :=
  sizesSum (l.takeWhile fun p => p.1 != k)

/-- Offset of key `k`'s slice in the flat-vector `exmap`: the sum of the stored sizes of
the entries that precede the first entry named `k` in iteration order. -/
def offsetOf (c : VectorConfig) (k : String) : Nat :=
  offsetOfL c.values k

deriving instance DecidableEq for Except

/-! ## Order lemmas for the map's key comparison -/

theorem charListLt_irrefl (l : List Char) : charListLt l l = false := by
  induction l with
  | nil => rfl
  | cons a as ih => simp [charListLt, ih]

theorem charListLt_asymm {a b : List Char} (h : charListLt a b = true) :
    charListLt b a = false := by
  induction a generalizing b with
  | nil =>
    cases b with
    | nil => simp [charListLt] at h
    | cons y ys => rfl
  | cons x xs ih =>
    cases b with
    | nil => simp [charListLt] at h
    | cons y ys =>
      by_cases h1 : x.toNat < y.toNat
      · have h2 : ¬ y.toNat < x.toNat := by omega
        simp [charListLt, h1, h2]
      · by_cases h2 : y.toNat < x.toNat
        · simp [charListLt, h1, h2] at h
        · simp only [charListLt, if_neg h1, if_neg h2] at h
          simp only [charListLt, if_neg h1, if_neg h2]
          exact ih h

theorem charListLt_trans {a b c : List Char} (hab : charListLt a b = true)
    (hbc : charListLt b c = true) : charListLt a c = true := by
  induction a generalizing b c with
  | nil =>
    cases c with
    | nil =>
      cases b with
      | nil => simp [charListLt] at hab
      | cons y ys => simp [charListLt] at hbc
    | cons z zs => rfl
  | cons x xs ih =>
    cases b with
    | nil => simp [charListLt] at hab
    | cons y ys =>
      cases c with
      | nil => simp [charListLt] at hbc
      | cons z zs =>
        by_cases hxy : x.toNat < y.toNat
        · by_cases hyz : y.toNat < z.toNat
          · have hxz : x.toNat < z.toNat := by omega
            simp [charListLt, hxz]
          · by_cases hzy : z.toNat < y.toNat
            · simp [charListLt, hyz, hzy] at hbc
            · have hxz : x.toNat < z.toNat := by omega
              simp [charListLt, hxz]
        · by_cases hyx : y.toNat < x.toNat
          · simp [charListLt, hxy, hyx] at hab
          · by_cases hyz : y.toNat < z.toNat
            · have hxz : x.toNat < z.toNat := by omega
              simp [charListLt, hxz]
            · by_cases hzy : z.toNat < y.toNat
              · simp [charListLt, hyz, hzy] at hbc
              · have hxz : ¬ x.toNat < z.toNat := by omega
                have hzx : ¬ z.toNat < x.toNat := by omega
                simp only [charListLt, if_neg hxy, if_neg hyx] at hab
                simp only [charListLt, if_neg hyz, if_neg hzy] at hbc
                simp only [charListLt, if_neg hxz, if_neg hzx]
                exact ih hab hbc

theorem charListLt_eq_of_not {a b : List Char} (h1 : charListLt a b = false)
    (h2 : charListLt b a = false) : a = b := by
  induction a generalizing b with
  | nil =>
    cases b with
    | nil => rfl
    | cons y ys => simp [charListLt] at h1
  | cons x xs ih =>
    cases b with
    | nil => simp [charListLt] at h2
    | cons y ys =>
      by_cases hxy : x.toNat < y.toNat
      · simp [charListLt, hxy] at h1
      · by_cases hyx : y.toNat < x.toNat
        · simp [charListLt, hyx] at h2
        · have hn : x.toNat = y.toNat := by omega
          have hx : x = y := by
            apply Char.ext
            have := congrArg Char.ofNat hn
            simpa [Char.ofNat_toNat] using congrArg Char.val (by
              simpa [Char.ofNat_toNat] using this)
          subst hx
          simp only [charListLt, if_neg hxy, if_neg hyx] at h1 h2
          exact congrArg (x :: ·) (ih h1 h2)

theorem keyLt_irrefl (s : String) : keyLt s s = false := charListLt_irrefl s.data

theorem keyLt_asymm {s t : String} (h : keyLt s t = true) : keyLt t s = false :=
  charListLt_asymm h

theorem keyLt_trans {s t u : String} (h1 : keyLt s t = true) (h2 : keyLt t u = true) :
    keyLt s u = true := charListLt_trans h1 h2

theorem keyLt_eq_of_not {s t : String} (h1 : keyLt s t = false) (h2 : keyLt t s = false) :
    s = t := by
  cases s; cases t
  exact congrArg String.mk (charListLt_eq_of_not h1 h2)

theorem keyLt_of_not_of_ne {s t : String} (h1 : keyLt s t = false) (hne : s ≠ t) :
    keyLt t s = true := by
  cases h : keyLt t s with
  | true => rfl
  | false => exact absurd (keyLt_eq_of_not h1 h) hne

theorem keyLt_ne {s t : String} (h : keyLt s t = true) : s ≠ t := by
  intro he
  subst he
  rw [keyLt_irrefl] at h
  exact Bool.noConfusion h

/-! ## Lemmas about the embedded map operations -/

theorem mapFind_some_mem {l : List (String × Vector)} {k : String} {v : Vector}
    (h : mapFind l k = some v) : (k, v) ∈ l := by
  induction l with
  | nil => exact absurd h (by simp [mapFind])
  | cons p rest ih =>
    obtain ⟨k0, v0⟩ := p
    by_cases hk : k0 = k
    · subst hk
      simp only [mapFind, if_pos trivial, eq_self_iff_true, if_true, Option.some.injEq] at h
      subst h
      exact List.mem_cons_self _ _
    · simp only [mapFind, if_neg hk] at h
      exact List.mem_cons_of_mem _ (ih h)

theorem mapFind_eq_none {l : List (String × Vector)} {k : String}
    (h : ∀ p ∈ l, p.1 ≠ k) : mapFind l k = none := by
  induction l with
  | nil => rfl
  | cons p rest ih =>
    obtain ⟨k0, v0⟩ := p
    simp only [mapFind, if_neg (h (k0, v0) (List.mem_cons_self _ _))]
    exact ih fun q hq => h q (List.mem_cons_of_mem _ hq)

theorem mapFind_mapInsert_self {l : List (String × Vector)} {k : String} (v : Vector)
    (h : mapFind l k = none) : mapFind (mapInsert l k v) k = some v := by
  induction l with
  | nil => simp [mapInsert, mapFind]
  | cons p rest ih =>
    obtain ⟨k0, v0⟩ := p
    simp only [mapFind] at h
    by_cases hk : k0 = k
    · rw [if_pos hk] at h
      exact Option.noConfusion h
    · rw [if_neg hk] at h
      by_cases h1 : keyLt k k0 = true
      · simp [mapInsert, h1, mapFind]
      · have h1f : keyLt k k0 = false := by
          cases hc : keyLt k k0 with
          | true => exact absurd hc h1
          | false => rfl
        have hne : ¬ k = k0 := fun he => hk he.symm
        simp only [mapInsert, h1f, Bool.false_eq_true, if_false, if_neg hne]
        simp only [mapFind, if_neg hk]
        exact ih h

theorem mapFind_mapInsert_ne {l : List (String × Vector)} {k j : String} (v : Vector)
    (h : j ≠ k) : mapFind (mapInsert l k v) j = mapFind l j := by
  have hne : ¬ k = j := fun he => h he.symm
  induction l with
  | nil => simp [mapInsert, mapFind, hne]
  | cons p rest ih =>
    obtain ⟨k0, v0⟩ := p
    by_cases h1 : keyLt k k0 = true
    · simp only [mapInsert, if_pos h1]
      simp [mapFind, hne]
    · simp only [mapInsert, if_neg h1]
      by_cases h2 : k = k0
      · rw [if_pos h2]
      · rw [if_neg h2]
        simp only [mapFind]
        by_cases h3 : k0 = j
        · rw [if_pos h3, if_pos h3]
        · rw [if_neg h3, if_neg h3]
          exact ih

theorem mapInsert_of_find_some {l : List (String × Vector)} {k : String} {v1 : Vector}
    (hw : WfList l) (h : mapFind l k = some v1) (v : Vector) : mapInsert l k v = l := by
  induction l with
  | nil => exact absurd h (by simp [mapFind])
  | cons p rest ih =>
    obtain ⟨k0, v0⟩ := p
    obtain ⟨hw1, hw2⟩ := List.pairwise_cons.mp hw
    by_cases hk : k = k0
    · have h1 : keyLt k k0 = false := hk ▸ keyLt_irrefl k
      simp [mapInsert, h1, hk, keyLt_irrefl]
    · have hk0 : ¬ k0 = k := fun he => hk he.symm
      have hfind : mapFind rest k = some v1 := by
        simpa [mapFind, hk0] using h
      have hmem : (k, v1) ∈ rest := mapFind_some_mem hfind
      have hgt : keyLt k0 k = true := hw1 (k, v1) hmem
      have h1 : keyLt k k0 = false := keyLt_asymm hgt
      simp only [mapInsert, h1, Bool.false_eq_true, if_false, if_neg hk]
      exact congrArg ((k0, v0) :: ·) (ih hw2 hfind)

theorem mapInsert_append_gt {l : List (String × Vector)} {k : String}
    (h : ∀ p ∈ l, keyLt p.1 k = true) (v : Vector) : mapInsert l k v = l ++ [(k, v)] := by
  induction l with
  | nil => rfl
  | cons p rest ih =>
    obtain ⟨k0, v0⟩ := p
    have hgt : keyLt k0 k = true := h (k0, v0) (List.mem_cons_self _ _)
    have h1 : keyLt k k0 = false := keyLt_asymm hgt
    have h2 : ¬ k = k0 := fun he => keyLt_ne hgt he.symm
    simp only [mapInsert, h1, Bool.false_eq_true, if_false, if_neg h2, List.cons_append]
    exact congrArg ((k0, v0) :: ·) (ih fun q hq => h q (List.mem_cons_of_mem _ hq))

theorem mapFind_mapAssign_self (l : List (String × Vector)) (k : String) (v : Vector) :
    mapFind (mapAssign l k v) k = some v := by
  induction l with
  | nil => simp [mapAssign, mapFind]
  | cons p rest ih =>
    obtain ⟨k0, v0⟩ := p
    by_cases h1 : keyLt k k0 = true
    · simp [mapAssign, h1, mapFind]
    · by_cases h2 : k = k0
      · subst h2
        simp [mapAssign, keyLt_irrefl, mapFind]
      · have hk : ¬ k0 = k := fun he => h2 he.symm
        simp only [mapAssign, if_neg h1, if_neg h2, mapFind, if_neg hk]
        exact ih

theorem mapFind_mapAssign_ne {l : List (String × Vector)} {k j : String} (v : Vector)
    (h : j ≠ k) : mapFind (mapAssign l k v) j = mapFind l j := by
  have hne : ¬ k = j := fun he => h he.symm
  induction l with
  | nil => simp [mapAssign, mapFind, hne]
  | cons p rest ih =>
    obtain ⟨k0, v0⟩ := p
    by_cases h1 : keyLt k k0 = true
    · simp only [mapAssign, if_pos h1]
      simp [mapFind, hne]
    · simp only [mapAssign, if_neg h1]
      by_cases h2 : k = k0
      · subst h2
        simp [mapFind, hne]
      · rw [if_neg h2]
        simp only [mapFind]
        by_cases h3 : k0 = j
        · rw [if_pos h3, if_pos h3]
        · rw [if_neg h3, if_neg h3]
          exact ih

theorem mapAssign_of_find_none {l : List (String × Vector)} {k : String}
    (h : mapFind l k = none) (v : Vector) : mapAssign l k v = mapInsert l k v := by
  induction l with
  | nil => rfl
  | cons p rest ih =>
    obtain ⟨k0, v0⟩ := p
    simp only [mapFind] at h
    by_cases hk : k0 = k
    · rw [if_pos hk] at h
      exact Option.noConfusion h
    · rw [if_neg hk] at h
      by_cases h1 : keyLt k k0 = true
      · simp [mapAssign, mapInsert, h1]
      · have h2 : ¬ k = k0 := fun he => hk he.symm
        simp only [mapAssign, mapInsert, if_neg h1, if_neg h2]
        exact congrArg ((k0, v0) :: ·) (ih h)

theorem mapFind_map_keyed (g : String → Vector → Vector) (l : List (String × Vector))
    (k : String) :
    mapFind (l.map fun p => (p.1, g p.1 p.2)) k = (mapFind l k).map (g k) := by
  induction l with
  | nil => rfl
  | cons p rest ih =>
    obtain ⟨k0, v0⟩ := p
    by_cases hk : k0 = k
    · subst hk
      simp [mapFind]
    · simp only [List.map_cons, mapFind, if_neg hk]
      exact ih

theorem foldl_mapInsert_entry (f : String × Vector → Vector) (l : List (String × Vector)) :
    ∀ acc : List (String × Vector), WfList l →
      (∀ p ∈ acc, ∀ q ∈ l, keyLt p.1 q.1 = true) →
      l.foldl (fun a p => mapInsert a p.1 (f p)) acc = acc ++ l.map fun p => (p.1, f p) := by
  induction l with
  | nil => intro acc _ _; simp
  | cons q rest ih =>
    intro acc hw hlt
    obtain ⟨hw1, hw2⟩ := List.pairwise_cons.mp hw
    have hstep : mapInsert acc q.1 (f q) = acc ++ [(q.1, f q)] :=
      mapInsert_append_gt (fun p hp => hlt p hp q (List.mem_cons_self _ _)) (f q)
    simp only [List.foldl_cons, hstep]
    rw [ih (acc ++ [(q.1, f q)]) hw2]
    · simp
    · intro p hp r hr
      rcases List.mem_append.mp hp with hpa | hpq
      · exact hlt p hpa r (List.mem_cons_of_mem _ hr)
      · have hpq2 : p = (q.1, f q) := by simpa using hpq
        subst hpq2
        exact hw1 r hr

theorem scale_values (c : VectorConfig) (s : ℤ) (hw : WfList c.values) :
    (c.scale s).values = c.values.map fun p => (p.1, vecScale s p.2) := by
  show c.values.foldl (fun acc p => mapInsert acc p.1 (vecScale s p.2)) [] = _
  rw [foldl_mapInsert_entry (fun p => vecScale s p.2) c.values [] hw
    (by intro p hp; simp at hp)]
  simp

theorem exmapGo_ok (delta : VectorConfig) (l : List (String × Vector)) :
    ∀ acc : VectorConfig, WfList l →
      (∀ p ∈ l, ∀ dj, mapFind delta.values p.1 = some dj → dj.length = p.2.length) →
      (∀ p ∈ acc.values, ∀ q ∈ l, keyLt p.1 q.1 = true) →
      exmapGo delta l acc = Except.ok ⟨acc.values ++ l.map (exmapEntry delta)⟩ := by
  induction l with
  | nil =>
    intro acc _ _ _
    simp [exmapGo]
  | cons q rest ih =>
    intro acc hw hok hlt
    obtain ⟨j, vj⟩ := q
    obtain ⟨hw1, hw2⟩ := List.pairwise_cons.mp hw
    have haccext : ∀ v : Vector, ∀ p ∈ (acc.insert j v).values, ∀ r ∈ rest,
        keyLt p.1 r.1 = true := by
      intro v p hp r hr
      have hpv : (acc.insert j v).values = acc.values ++ [(j, v)] :=
        mapInsert_append_gt (fun p2 hp2 => hlt p2 hp2 (j, vj) (List.mem_cons_self _ _)) v
      rw [show acc.insert j v = ⟨mapInsert acc.values j v⟩ from rfl] at hp
      rw [show (⟨mapInsert acc.values j v⟩ : VectorConfig).values = mapInsert acc.values j v
        from rfl] at hp
      rw [show mapInsert acc.values j v = acc.values ++ [(j, v)] from hpv] at hp
      rcases List.mem_append.mp hp with hpa | hpj
      · exact hlt p hpa r (List.mem_cons_of_mem _ hr)
      · have hpj2 : p = (j, v) := by simpa using hpj
        subst hpj2
        exact hw1 r hr
    have hokrest : ∀ p ∈ rest, ∀ dj, mapFind delta.values p.1 = some dj →
        dj.length = p.2.length :=
      fun p hp => hok p (List.mem_cons_of_mem _ hp)
    cases hdj : mapFind delta.values j with
    | none =>
      have hins : (acc.insert j vj).values = acc.values ++ [(j, vj)] :=
        mapInsert_append_gt (fun p hp => hlt p hp (j, vj) (List.mem_cons_self _ _)) vj
      simp only [exmapGo, hdj]
      rw [ih (acc.insert j vj) hw2 hokrest (haccext vj), hins]
      simp [exmapEntry, hdj]
    | some dj =>
      have hlen : dj.length = vj.length := hok (j, vj) (List.mem_cons_self _ _) dj hdj
      have hins : (acc.insert j (vecAdd vj dj)).values
          = acc.values ++ [(j, vecAdd vj dj)] :=
        mapInsert_append_gt (fun p hp => hlt p hp (j, vj) (List.mem_cons_self _ _)) _
      have hcs : (check_size j vj dj).2 = Except.ok () := by
        simp [check_size, hlen]
      simp only [exmapGo, hdj, hcs]
      rw [ih (acc.insert j (vecAdd vj dj)) hw2 hokrest (haccext (vecAdd vj dj)), hins]
      simp [exmapEntry, hdj]

theorem exmapGo_error (delta : VectorConfig) (l : List (String × Vector)) :
    ∀ acc : VectorConfig, WfList l →
      ∀ j vj dj, mapFind l j = some vj → mapFind delta.values j = some dj →
        dj.length ≠ vj.length →
        ∃ j2 vj2 dj2, mapFind l j2 = some vj2 ∧ mapFind delta.values j2 = some dj2 ∧
          dj2.length ≠ vj2.length ∧
          exmapGo delta l acc =
            Except.error (ConfigError.DimensionMismatch j2 vj2.length dj2.length) := by
  induction l with
  | nil =>
    intro acc _ j vj dj hf
    exact absurd hf (by simp [mapFind])
  | cons q rest ih =>
    intro acc hw j vj dj hf hd hne
    obtain ⟨k0, v0⟩ := q
    obtain ⟨hw1, hw2⟩ := List.pairwise_cons.mp hw
    have hnone : mapFind rest k0 = none :=
      mapFind_eq_none fun p hp => Ne.symm (keyLt_ne (hw1 p hp))
    by_cases hk : k0 = j
    · subst hk
      have hv : v0 = vj := by simpa [mapFind] using hf
      subst hv
      refine ⟨k0, v0, dj, by simp [mapFind], hd, hne, ?_⟩
      have hcs : (check_size k0 v0 dj).2
          = Except.error (ConfigError.DimensionMismatch k0 v0.length dj.length) := by
        simp [check_size, hne]
      simp [exmapGo, hd, hcs]
    · have hfr : mapFind rest j = some vj := by
        simpa [mapFind, hk] using hf
      cases hd0 : mapFind delta.values k0 with
      | none =>
        obtain ⟨j2, vj2, dj2, hf2, hd2, hne2, herr⟩ :=
          ih (acc.insert k0 v0) hw2 j vj dj hfr hd hne
        have hk2 : ¬ k0 = j2 := by
          intro he
          rw [← he] at hf2
          rw [hnone] at hf2
          exact Option.noConfusion hf2
        refine ⟨j2, vj2, dj2, by simp [mapFind, hk2, hf2], hd2, hne2, ?_⟩
        simp [exmapGo, hd0, herr]
      | some d0 =>
        by_cases hlen0 : d0.length = v0.length
        · obtain ⟨j2, vj2, dj2, hf2, hd2, hne2, herr⟩ :=
            ih (acc.insert k0 (vecAdd v0 d0)) hw2 j vj dj hfr hd hne
          have hk2 : ¬ k0 = j2 := by
            intro he
            rw [← he] at hf2
            rw [hnone] at hf2
            exact Option.noConfusion hf2
          refine ⟨j2, vj2, dj2, by simp [mapFind, hk2, hf2], hd2, hne2, ?_⟩
          have hcs : (check_size k0 v0 d0).2 = Except.ok () := by
            simp [check_size, hlen0]
          simp [exmapGo, hd0, hcs, herr]
        · refine ⟨k0, v0, d0, by simp [mapFind], hd0, hlen0, ?_⟩
          have hcs : (check_size k0 v0 d0).2
              = Except.error (ConfigError.DimensionMismatch k0 v0.length d0.length) := by
            simp [check_size, hlen0]
          simp [exmapGo, hd0, hcs]

theorem offsetOfL_cons (j : String) (vj : Vector) (rest : List (String × Vector))
    (k : String) :
    offsetOfL ((j, vj) :: rest) k = if j = k then 0 else vj.length + offsetOfL rest k := by
  by_cases h : j = k
  · simp [offsetOfL, List.takeWhile_cons, h, sizesSum]
  · simp [offsetOfL, List.takeWhile_cons, h, sizesSum]

theorem slices_find (delta : Vector) (l : List (String × Vector)) :
    ∀ (i : Nat) (k : String), mapFind (slices delta l i) k = (mapFind l k).map
      (fun v => vecAdd v (sub delta (i + offsetOfL l k) (i + offsetOfL l k + v.length))) := by
  induction l with
  | nil => intro i k; rfl
  | cons q rest ih =>
    intro i k
    obtain ⟨j, vj⟩ := q
    by_cases hk : j = k
    · subst hk
      simp [slices, mapFind, offsetOfL_cons]
    · have harith : i + offsetOfL ((j, vj) :: rest) k
          = (i + vj.length) + offsetOfL rest k := by
        rw [offsetOfL_cons, if_neg hk]
        omega
      simp only [slices, mapFind, if_neg hk]
      rw [ih (i + vj.length) k, harith]

theorem exmapFlatGo_values (delta : Vector) (l : List (String × Vector)) :
    ∀ (i : Nat) (acc : VectorConfig), WfList l →
      (∀ p ∈ acc.values, ∀ q ∈ l, keyLt p.1 q.1 = true) →
      (exmapFlatGo delta l i acc).values = acc.values ++ slices delta l i := by
  induction l with
  | nil => intro i acc _ _; simp [exmapFlatGo, slices]
  | cons q rest ih =>
    intro i acc hw hlt
    obtain ⟨j, vj⟩ := q
    obtain ⟨hw1, hw2⟩ := List.pairwise_cons.mp hw
    have hins : (acc.insert j (vecAdd vj (sub delta i (i + vj.length)))).values
        = acc.values ++ [(j, vecAdd vj (sub delta i (i + vj.length)))] :=
      mapInsert_append_gt (fun p hp => hlt p hp (j, vj) (List.mem_cons_self _ _)) _
    have hcond : ∀ p ∈ (acc.insert j (vecAdd vj (sub delta i (i + vj.length)))).values,
        ∀ r ∈ rest, keyLt p.1 r.1 = true := by
      intro p hp r hr
      rw [hins] at hp
      rcases List.mem_append.mp hp with hpa | hpj
      · exact hlt p hpa r (List.mem_cons_of_mem _ hr)
      · have hpj2 : p = (j, vecAdd vj (sub delta i (i + vj.length))) := by simpa using hpj
        subst hpj2
        exact hw1 r hr
    simp only [exmapFlatGo]
    rw [ih (i + vj.length) _ hw2 hcond, hins]
    simp [slices]

theorem equalsGo_ok_true (expected : VectorConfig) (tol : ℤ) (l : List (String × Vector)) :
    (equalsGo expected tol l).2 = Except.ok true →
      ∀ p ∈ l, ∃ w, mapFind expected.values p.1 = some w ∧
        equal_with_abs_tol w p.2 tol = true := by
  induction l with
  | nil => intro _ p hp; exact absurd hp (List.not_mem_nil p)
  | cons q rest ih =>
    obtain ⟨j, v⟩ := q
    intro h p hp
    cases hfind : mapFind expected.values j with
    | none =>
      rw [show (equalsGo expected tol ((j, v) :: rest)).2
          = Except.error ConfigError.InvalidKey from by
        simp [equalsGo, VectorConfig.getTr, hfind]] at h
      exact Except.noConfusion h
    | some w =>
      by_cases htol : equal_with_abs_tol w v tol = true
      · have hrest : (equalsGo expected tol rest).2 = Except.ok true := by
          have hstep : (equalsGo expected tol ((j, v) :: rest)).2
              = (equalsGo expected tol rest).2 := by
            simp [equalsGo, VectorConfig.getTr, hfind, htol]
          rw [hstep] at h
          exact h
        rcases List.mem_cons.mp hp with hpj | hpr
        · subst hpj
          exact ⟨w, hfind, htol⟩
        · exact ih hrest p hpr
      · have hfalse : (equalsGo expected tol ((j, v) :: rest)).2 = Except.ok false := by
          simp [equalsGo, VectorConfig.getTr, hfind, htol]
        rw [hfalse] at h
        simp at h

theorem equalsGo_missing (expected : VectorConfig) (tol : ℤ) (l : List (String × Vector)) :
    (∀ p ∈ l, ∀ w, mapFind expected.values p.1 = some w →
        equal_with_abs_tol w p.2 tol = true) →
      (∃ p ∈ l, mapFind expected.values p.1 = none) →
      ∃ j, mapFind expected.values j = none ∧
        equalsGo expected tol l =
          ([DiagEvent.dumpConfig expected.values, DiagEvent.askedForKey j],
            Except.error ConfigError.InvalidKey) := by
  induction l with
  | nil =>
    intro _ hmiss
    rcases hmiss with ⟨p, hp, _⟩
    exact absurd hp (List.not_mem_nil p)
  | cons q rest ih =>
    intro hmatch hmiss
    obtain ⟨j0, v0⟩ := q
    cases hfind : mapFind expected.values j0 with
    | none =>
      refine ⟨j0, hfind, ?_⟩
      simp [equalsGo, VectorConfig.getTr, hfind]
    | some w =>
      have htol : equal_with_abs_tol w v0 tol = true :=
        hmatch (j0, v0) (List.mem_cons_self _ _) w hfind
      have hmiss2 : ∃ p ∈ rest, mapFind expected.values p.1 = none := by
        rcases hmiss with ⟨p, hp, hnonep⟩
        rcases List.mem_cons.mp hp with hpj | hpr
        · subst hpj
          rw [hfind] at hnonep
          exact Option.noConfusion hnonep
        · exact ⟨p, hpr, hnonep⟩
      obtain ⟨j, hjn, heq⟩ := ih (fun p hp => hmatch p (List.mem_cons_of_mem _ hp)) hmiss2
      refine ⟨j, hjn, ?_⟩
      simp [equalsGo, VectorConfig.getTr, hfind, htol, heq]

/-! ## Claims -/

/-- Counterexample to C1: an `AutoTicToc` guard on which `stop()` is called twice records
the region's elapsed time twice, not once — `stop()` itself has no idempotence guard; only
the destructor checks `isSet_`. -/
theorem autoTicToc_double_stop_records_twice :
    tocCount ((AutoTicToc.construct 0 "region").2
      ++ ((AutoTicToc.construct 0 "region").1.stop).2
      ++ (((AutoTicToc.construct 0 "region").1.stop).1.stop).2) = 2
    ∧ tocCount ((AutoTicToc.construct 0 "region").2
      ++ ((AutoTicToc.construct 0 "region").1.stop).2
      ++ (((AutoTicToc.construct 0 "region").1.stop).1.stop).2) ≠ 1 := by
  decide

/-- C1 (amended): construction performs `tic`; destruction performs `toc` unless an
explicit early `stop()` was already called, and `stop()` followed by destruction records
the elapsed time exactly once (the destructor is guarded by `isSet_`); an explicit second
call to `stop()` itself, however, is unguarded and records again. -/
theorem autoTicToc_scoped_contract (id : Nat) (label : String) :
    (AutoTicToc.construct id label).2 = [TicTocEvent.tic id label]
    ∧ tocCount ((AutoTicToc.construct id label).2
        ++ (AutoTicToc.construct id label).1.destruct) = 1
    ∧ ((AutoTicToc.construct id label).1.stop).1.destruct = []
    ∧ tocCount ((AutoTicToc.construct id label).2
        ++ ((AutoTicToc.construct id label).1.stop).2
        ++ ((AutoTicToc.construct id label).1.stop).1.destruct) = 1 :=
  ⟨rfl, rfl, rfl, rfl⟩

/-- C2 counterexample: inserting key "x" twice leaves the first vector in place —
`std::map::insert` does not replace an existing entry — so a subsequent `get` returns the
first value, not the claimed second one. -/
theorem insert_does_not_replace :
    (((⟨[]⟩ : VectorConfig).insert "x" [1]).insert "x" [2]).get "x" = Except.ok [1]
    ∧ (Except.ok ([1] : Vector) : Except ConfigError Vector) ≠ Except.ok [2] := by
  decide

/-- C2 (amended): `insert` on a map already containing `(k, v1)` leaves the map unchanged
— the new vector is discarded and a subsequent `get k` still returns `v1` — and `insert`
returns the receiver. -/
theorem insert_existing_keeps_value (c : VectorConfig) (k : String) (v1 v2 : Vector)
    (hw : WfList c.values) (h : mapFind c.values k = some v1) :
    c.insert k v2 = c ∧ (c.insert k v2).get k = Except.ok v1 := by
  have heq : c.insert k v2 = c := by
    unfold VectorConfig.insert
    rw [mapInsert_of_find_some hw h v2]
  refine ⟨heq, ?_⟩
  rw [heq]
  show (c.getTr k).2 = Except.ok v1
  simp [VectorConfig.getTr, h]

/-- Witness for the amended C2 at a concrete map. -/
theorem insert_existing_keeps_value_witness :
    (⟨[("x", [7])]⟩ : VectorConfig).insert "x" [9] = (⟨[("x", [7])]⟩ : VectorConfig)
    ∧ ((⟨[("x", [7])]⟩ : VectorConfig).insert "x" [9]).get "x" = Except.ok [7] :=
  insert_existing_keeps_value ⟨[("x", [7])]⟩ "x" [7] [9] (by decide) (by decide)

/-- C3: a vector inserted for an absent key is returned unchanged by `get`, and `get` on
an absent key fails with the InvalidKey condition after dumping the map's current
contents (the dump precedes the failure in the diagnostic trace). -/
theorem get_contract (c : VectorConfig) (k : String) (v : Vector)
    (h : mapFind c.values k = none) :
    (c.insert k v).getTr k = ([], Except.ok v)
    ∧ c.getTr k = ([DiagEvent.dumpConfig c.values, DiagEvent.askedForKey k],
        Except.error ConfigError.InvalidKey) := by
  constructor
  · show (⟨mapInsert c.values k v⟩ : VectorConfig).getTr k = _
    simp [VectorConfig.getTr, mapFind_mapInsert_self v h]
  · simp [VectorConfig.getTr, h]

/-- Witness for C3 at a concrete map. -/
theorem get_contract_witness :
    ((⟨[("y", [5])]⟩ : VectorConfig).insert "x" [1, 2]).getTr "x" = ([], Except.ok [1, 2])
    ∧ (⟨[("y", [5])]⟩ : VectorConfig).getTr "x"
      = ([DiagEvent.dumpConfig [("y", [5])], DiagEvent.askedForKey "x"],
          Except.error ConfigError.InvalidKey) :=
  get_contract ⟨[("y", [5])]⟩ "x" [1, 2] (by decide)

/-- C4: `add(k, a)` behaves exactly as `insert(k, a)` when `k` is absent; when `k` holds a
nonempty stored vector of `a`'s length it replaces the entry with the elementwise sum; and
entries under all other keys are unchanged. -/
theorem add_spec (c : VectorConfig) (k : String) (a : Vector) :
    (mapFind c.values k = none → c.add k a = c.insert k a)
    ∧ (∀ vj, mapFind c.values k = some vj → vj ≠ [] → vj.length = a.length →
        mapFind (c.add k a).values k = some (vecAdd vj a))
    ∧ (∀ j, j ≠ k → mapFind (c.add k a).values j = mapFind c.values j) := by
  refine ⟨?_, ?_, ?_⟩
  · intro h
    have hval : c.add k a = ⟨mapAssign c.values k a⟩ := by
      simp [VectorConfig.add, h]
    rw [hval, mapAssign_of_find_none h a]
    rfl
  · intro vj hfind hne hlen
    have hlen0 : ¬ vj.length = 0 := fun h0 => hne (List.eq_nil_of_length_eq_zero h0)
    have hval : c.add k a = ⟨mapAssign c.values k (vecAdd vj a)⟩ := by
      simp [VectorConfig.add, hfind, hlen0]
    rw [hval]
    exact mapFind_mapAssign_self c.values k (vecAdd vj a)
  · intro j hj
    exact mapFind_mapAssign_ne _ hj

/-- Witness for C4: an absent key, a present key, and an untouched other key. -/
theorem add_spec_witness :
    (⟨[("y", [5])]⟩ : VectorConfig).add "x" [2]
        = (⟨[("y", [5])]⟩ : VectorConfig).insert "x" [2]
    ∧ mapFind ((⟨[("x", [3])]⟩ : VectorConfig).add "x" [2]).values "x"
        = some (vecAdd [3] [2])
    ∧ mapFind ((⟨[("x", [3])]⟩ : VectorConfig).add "x" [2]).values "y"
        = mapFind [("x", [3])] "y" :=
  ⟨(add_spec ⟨[("y", [5])]⟩ "x" [2]).1 (by decide),
   (add_spec ⟨[("x", [3])]⟩ "x" [2]).2.1 [3] (by decide) (by decide) (by decide),
   (add_spec ⟨[("x", [3])]⟩ "x" [2]).2.2 "y" (by decide)⟩

/-- C5: `scale(s)` returns a new map with exactly the same key set in which every stored
vector is multiplied elementwise by `s`: looking up any key yields the original vector
scaled, and keys absent from the receiver stay absent. -/
theorem scale_spec (c : VectorConfig) (s : ℤ) (hw : WfList c.values) (k : String) :
    mapFind (c.scale s).values k = (mapFind c.values k).map (vecScale s) := by
  rw [scale_values c s hw]
  exact mapFind_map_keyed (fun _ v => vecScale s v) c.values k

/-- Witness for C5 at a concrete map. -/
theorem scale_spec_witness :
    mapFind ((⟨[("x", [2, -3])]⟩ : VectorConfig).scale 4).values "x"
      = (mapFind [("x", [2, -3])] "x").map (vecScale 4) :=
  scale_spec ⟨[("x", [2, -3])]⟩ 4 (by decide) "x"

/-- C6: `exmap(delta)` over the receiver's key set: when every key shared with `delta`
has matching dimensions the call succeeds, adding `delta`'s entry to each shared key and
passing every other key of the receiver through unchanged; and whenever some shared key's
dimensions differ, the call fails with a DimensionMismatch condition naming both sizes. -/
theorem exmap_spec (c : VectorConfig) (delta : VectorConfig) (hw : WfList c.values) :
    ((∀ p ∈ c.values, ∀ q ∈ delta.values, p.1 = q.1 → q.2.length = p.2.length) →
      ∃ r, c.exmap delta = Except.ok r ∧ ∀ k,
        mapFind r.values k = (mapFind c.values k).map fun vj =>
          match mapFind delta.values k with
          | some dj => vecAdd vj dj
          | none => vj)
    ∧ (∀ j vj dj, mapFind c.values j = some vj → mapFind delta.values j = some dj →
        dj.length ≠ vj.length →
        ∃ j2 vj2 dj2, mapFind c.values j2 = some vj2
          ∧ mapFind delta.values j2 = some dj2
          ∧ dj2.length ≠ vj2.length
          ∧ c.exmap delta
            = Except.error (ConfigError.DimensionMismatch j2 vj2.length dj2.length)) := by
  constructor
  · intro hok
    have hok2 : ∀ p ∈ c.values, ∀ dj, mapFind delta.values p.1 = some dj →
        dj.length = p.2.length :=
      fun p hp dj hdj => hok p hp (p.1, dj) (mapFind_some_mem hdj) rfl
    refine ⟨⟨c.values.map (exmapEntry delta)⟩, ?_, ?_⟩
    · have hgo := exmapGo_ok delta c.values ⟨[]⟩ hw hok2 (by intro p hp; simp at hp)
      simpa [VectorConfig.exmap] using hgo
    · intro k
      exact mapFind_map_keyed
        (fun j v => match mapFind delta.values j with
          | some dj => vecAdd v dj
          | none => v) c.values k
  · intro j vj dj hf hd hne
    exact exmapGo_error delta c.values ⟨[]⟩ hw j vj dj hf hd hne

/-- Witness for C6: a matching-size success and a mismatched-size failure. -/
theorem exmap_spec_witness :
    (∃ r, (⟨[("x", [1, 2])]⟩ : VectorConfig).exmap ⟨[("x", [10, 20])]⟩ = Except.ok r
      ∧ ∀ k, mapFind r.values k
          = (mapFind [("x", [1, 2])] k).map fun vj =>
              match mapFind [("x", [10, 20])] k with
              | some dj => vecAdd vj dj
              | none => vj)
    ∧ (∃ j2 vj2 dj2, mapFind ([("y", [1, 2])] : List (String × Vector)) j2 = some vj2
        ∧ mapFind ([("y", [7])] : List (String × Vector)) j2 = some dj2
        ∧ dj2.length ≠ vj2.length
        ∧ (⟨[("y", [1, 2])]⟩ : VectorConfig).exmap ⟨[("y", [7])]⟩
          = Except.error (ConfigError.DimensionMismatch j2 vj2.length dj2.length)) :=
  ⟨(exmap_spec ⟨[("x", [1, 2])]⟩ ⟨[("x", [10, 20])]⟩ (by decide)).1 (by decide),
   (exmap_spec ⟨[("y", [1, 2])]⟩ ⟨[("y", [7])]⟩ (by decide)).2 "y" [1, 2] [7]
     (by decide) (by decide) (by decide)⟩

/-- Counterexample to C7: the flat-vector `exmap` does not take the keys in insertion
order.  Inserting "b" before "a" and applying `exmap([10, 20])`, insertion order would
hand "b" (stored vector [1]) the first slice [10], yielding [11]; the code walks the map
in its sorted iteration order, so "b" receives the second slice and becomes [21]. -/
theorem exmapFlat_not_insertion_order :
    mapFind ((((⟨[]⟩ : VectorConfig).insert "b" [1]).insert "a" [2]).exmapFlat
        [10, 20]).values "b" = some [21]
    ∧ (some ([21] : Vector) ≠ some [11]) := by
  decide

/-- C7 (amended): for a flat delta whose length is the total stored dimension, `exmap`
splits it into consecutive slices sized by each key's stored vector length, taking the
keys in the map's iteration order — ascending key order, not insertion order — and adds
each slice to the corresponding stored vector; the key set is preserved exactly. -/
theorem exmapFlat_spec (c : VectorConfig) (delta : Vector) (hw : WfList c.values)
    (hlen : delta.length = c.dim) (k : String) :
    mapFind (c.exmapFlat delta).values k = (mapFind c.values k).map
      (fun v => vecAdd v (sub delta (offsetOf c k) (offsetOf c k + v.length))) := by
  show mapFind (exmapFlatGo delta c.values 0 ⟨[]⟩).values k = _
  rw [exmapFlatGo_values delta c.values 0 ⟨[]⟩ hw (by intro p hp; simp at hp)]
  show mapFind ([] ++ slices delta c.values 0) k = _
  rw [List.nil_append, slices_find delta c.values 0 k]
  simp [offsetOf]

/-- Witness for the amended C7 at a concrete map. -/
theorem exmapFlat_spec_witness :
    mapFind ((⟨[("a", [2]), ("b", [1])]⟩ : VectorConfig).exmapFlat [10, 20]).values "b"
      = (mapFind [("a", [2]), ("b", [1])] "b").map
        (fun v => vecAdd v (sub [10, 20] (offsetOf ⟨[("a", [2]), ("b", [1])]⟩ "b")
          (offsetOf ⟨[("a", [2]), ("b", [1])]⟩ "b" + v.length))) :=
  exmapFlat_spec ⟨[("a", [2]), ("b", [1])]⟩ [10, 20] (by decide) (by decide) "b"

/-- C8: `equals` returns false whenever the two key-set sizes differ (the size test comes
before any lookup, so overlapping keys matching within tolerance cannot rescue it), and
it returns true only when the sizes match and every entry of the receiver is matched
within tolerance by the corresponding entry of the other map. -/
theorem equals_spec (a b : VectorConfig) (tol : ℤ) :
    (a.values.length ≠ b.values.length → (a.equals b tol).2 = Except.ok false)
    ∧ ((a.equals b tol).2 = Except.ok true →
        a.values.length = b.values.length
        ∧ ∀ p ∈ a.values, ∃ w, mapFind b.values p.1 = some w
            ∧ equal_with_abs_tol w p.2 tol = true) := by
  constructor
  · intro h
    simp [VectorConfig.equals, h]
  · intro h
    by_cases hsize : a.values.length = b.values.length
    · refine ⟨hsize, ?_⟩
      have hgo : (equalsGo b tol a.values).2 = Except.ok true := by
        rw [show a.equals b tol = equalsGo b tol a.values from by
          simp [VectorConfig.equals, hsize]] at h
        exact h
      exact equalsGo_ok_true b tol a.values hgo
    · rw [show (a.equals b tol).2 = Except.ok false from by
        simp [VectorConfig.equals, hsize]] at h
      simp at h

/-- Witness for C8: a size mismatch returning false, and a within-tolerance true case. -/
theorem equals_spec_witness :
    ((⟨[("x", [0])]⟩ : VectorConfig).equals ⟨[]⟩ 5).2 = Except.ok false
    ∧ ([("x", [0])] : List (String × Vector)).length = [("x", [1])].length
    ∧ ∀ p ∈ ([("x", [0])] : List (String × Vector)), ∃ w,
        mapFind [("x", [1])] p.1 = some w ∧ equal_with_abs_tol w p.2 5 = true :=
  ⟨(equals_spec ⟨[("x", [0])]⟩ ⟨[]⟩ 5).1 (by decide),
   ((equals_spec ⟨[("x", [0])]⟩ ⟨[("x", [1])]⟩ 5).2 (by decide)).1,
   ((equals_spec ⟨[("x", [0])]⟩ ⟨[("x", [1])]⟩ 5).2 (by decide)).2⟩

/-- C9: for every prior timing state, `tictoc_reset_` installs a fresh root labeled
"Total" with zero call count and no children, and sets the cursor back to that root. -/
theorem tictoc_reset_installs_fresh_root (s : TimingState) :
    (tictoc_reset_ s).timingRoot.label = "Total"
    ∧ (tictoc_reset_ s).timingRoot.n = 0
    ∧ (tictoc_reset_ s).timingRoot.children = []
    ∧ (tictoc_reset_ s).timingCurrent = [] :=
  ⟨rfl, rfl, rfl, rfl⟩

/-- Counterexample to C10: sizes are equal (2 = 2) and key "b" of the receiver is absent
from the other map, yet `equals` returns false rather than failing with InvalidKey — the
overlapping key "a" fails the tolerance test first, and the loop returns false before it
ever looks up "b". -/
theorem equals_missing_key_can_return_false :
    ((⟨[("a", [0]), ("b", [1])]⟩ : VectorConfig).equals ⟨[("a", [5]), ("c", [1])]⟩ 1).2
      = Except.ok false
    ∧ (Except.ok false : Except ConfigError Bool) ≠ Except.error ConfigError.InvalidKey
    ∧ mapFind ([("a", [5]), ("c", [1])] : List (String × Vector)) "b" = none
    ∧ ([("a", [0]), ("b", [1])] : List (String × Vector)).length
        = ([("a", [5]), ("c", [1])] : List (String × Vector)).length := by
  decide

/-- C10 (amended): with equal key-set sizes, if some key of the receiver is absent from
`b` and every key of the receiver that is present in `b` matches within tolerance, then
`equals` does not return false: it fails with the InvalidKey condition raised through
`get`'s contract, after dumping `b`'s contents. -/
theorem equals_missing_key_spec (a b : VectorConfig) (tol : ℤ)
    (hsize : a.values.length = b.values.length)
    (hmatch : ∀ p ∈ a.values, ∀ q ∈ b.values, p.1 = q.1 →
        equal_with_abs_tol q.2 p.2 tol = true)
    (hmiss : ∃ p ∈ a.values, mapFind b.values p.1 = none) :
    ∃ j, mapFind b.values j = none ∧
      a.equals b tol = ([DiagEvent.dumpConfig b.values, DiagEvent.askedForKey j],
        Except.error ConfigError.InvalidKey) := by
  have hmatch2 : ∀ p ∈ a.values, ∀ w, mapFind b.values p.1 = some w →
      equal_with_abs_tol w p.2 tol = true :=
    fun p hp w hw => hmatch p hp (p.1, w) (mapFind_some_mem hw) rfl
  obtain ⟨j, hjn, heq⟩ := equalsGo_missing b tol a.values hmatch2 hmiss
  refine ⟨j, hjn, ?_⟩
  rw [show a.equals b tol = equalsGo b tol a.values from by
    simp [VectorConfig.equals, hsize]]
  exact heq

/-- Witness for the amended C10 at a concrete pair of maps. -/
theorem equals_missing_key_spec_witness :
    ∃ j, mapFind ([("a", [0]), ("c", [9])] : List (String × Vector)) j = none ∧
      (⟨[("a", [0]), ("b", [1])]⟩ : VectorConfig).equals ⟨[("a", [0]), ("c", [9])]⟩ 1
        = ([DiagEvent.dumpConfig [("a", [0]), ("c", [9])], DiagEvent.askedForKey j],
            Except.error ConfigError.InvalidKey) :=
  equals_missing_key_spec ⟨[("a", [0]), ("b", [1])]⟩ ⟨[("a", [0]), ("c", [9])]⟩ 1
    (by decide) (by decide) (by decide)

end gtsam
